import Mathlib

/-!
Shallow embedding of the volatility-regime pipeline of `src/cal.py`
(`analyze_regimes`, its inner `label_regime`, and the sink-path
preparation shared with `save_to_excel`).

Prices and volumes are embedded as exact rationals.  The IEEE-754
special values that the pandas code produces — NaN (from `0/0`, from
quantiles of empty data, from means of empty data and from the
undefined first `pct_change` entry) and the two infinities (from
division of a nonzero numerator by zero) — are modelled explicitly by
the inductive type `PV`.  All comparisons and arithmetic on `PV`
follow IEEE-754 semantics, which is what numpy/pandas float columns
implement.
-/

namespace Cal

/-- Model of one IEEE-754 double value in a pandas float column:
NaN, +∞, −∞, or a finite value (kept exact as a rational). -/
inductive PV where
  | nan : PV
  | pinf : PV
  | ninf : PV
  | num : ℚ → PV
deriving DecidableEq, Repr, Inhabited

/-- IEEE-754 comparison `a <= b`: any comparison with NaN is false. -/
def pvLe : PV → PV → Bool
  | .nan, _ => false
  | _, .nan => false
  | .ninf, _ => true
  | _, .pinf => true
  | .pinf, _ => false
  | _, .ninf => false
  | .num a, .num b => a ≤ b

/-- Test for the missing-value marker NaN (pandas `isna`). -/
def pvIsNan : PV → Bool
  | .nan => true
  | _ => false

/-- IEEE-754 negation. -/
def pvNeg : PV → PV
  | .nan => .nan
  | .pinf => .ninf
  | .ninf => .pinf
  | .num a => .num (-a)

/-- IEEE-754 addition: NaN propagates, `+∞ + −∞ = NaN`. -/
def pvAdd : PV → PV → PV
  | .nan, _ => .nan
  | _, .nan => .nan
  | .pinf, .ninf => .nan
  | .ninf, .pinf => .nan
  | .pinf, _ => .pinf
  | .ninf, _ => .ninf
  | _, .pinf => .pinf
  | _, .ninf => .ninf
  | .num a, .num b => .num (a + b)

/-- IEEE-754 subtraction. -/
def pvSub (a b : PV) : PV := pvAdd a (pvNeg b)

/-- IEEE-754 multiplication: NaN propagates, `±∞ * 0 = NaN`. -/
def pvMul : PV → PV → PV
  | .nan, _ => .nan
  | _, .nan => .nan
  | .pinf, .pinf => .pinf
  | .pinf, .ninf => .ninf
  | .ninf, .pinf => .ninf
  | .ninf, .ninf => .pinf
  | .pinf, .num b => if b = 0 then .nan else if 0 < b then .pinf else .ninf
  | .ninf, .num b => if b = 0 then .nan else if 0 < b then .ninf else .pinf
  | .num a, .pinf => if a = 0 then .nan else if 0 < a then .pinf else .ninf
  | .num a, .ninf => if a = 0 then .nan else if 0 < a then .ninf else .pinf
  | .num a, .num b => .num (a * b)

/-- IEEE-754 division of two finite values, as numpy/pandas float columns
compute it: `x / 0` is `±∞` for `x ≠ 0` and NaN for `x = 0`; otherwise the
exact quotient. -/
def fdiv (a b : ℚ) : PV :=
  if b = 0 then (if a = 0 then .nan else if 0 < a then .pinf else .ninf)
  else .num (a / b)

/-- Total ordering used when sorting a float column (numpy sort order):
`−∞ < finite < +∞ < NaN` (NaN sorts to the end). -/
def pvLeT : PV → PV → Bool
  | .ninf, _ => true
  | _, .nan => true
  | .nan, _ => false
  | _, .ninf => false
  | .num a, .num b => a ≤ b
  | .num _, .pinf => true
  | .pinf, .pinf => true
  | .pinf, .num _ => false

/-- Propositional form of `pvLeT`, used as the sorting relation. -/
def pvle (a b : PV) : Prop := pvLeT a b = true

instance : DecidableRel pvle := fun a b => inferInstanceAs (Decidable (pvLeT a b = true))

instance : IsTotal PV pvle where
  total a b := by
    cases a <;> cases b <;> simp [pvle, pvLeT]
    exact le_total _ _

instance : IsTrans PV pvle where
  trans a b c := by
    cases a <;> cases b <;> cases c <;> simp [pvle, pvLeT]
    exact fun h h' => le_trans h h'

/-- Linear interpolation between two consecutive order statistics, exactly as
numpy's quantile lerp computes it: `a + (b-a)*g` when `g < 1/2` and
`b - (b-a)*(1-g)` otherwise. -/
def pvLerp (a b : PV) (g : ℚ) : PV :=
  if g < 1/2 then pvAdd a (pvMul (pvSub b a) (.num g))
  else pvSub b (pvMul (pvSub b a) (.num (1 - g)))

/-- The non-NaN entries of a float column, in ascending sort order — the
data over which pandas `Series.quantile` interpolates. -/
def nonNanSorted (xs : List PV) : List PV :=
  List.insertionSort pvle (xs.filter (fun v => !pvIsNan v))

/-- Index of the order statistic below the virtual index `q * (n - 1)`. -/
def qIdx (n : ℕ) (q : ℚ) : ℕ := (⌊q * ((n : ℚ) - 1)⌋).toNat

/-- pandas `Series.quantile(q)` (linear interpolation): drop NaN, sort, then
interpolate between the closest ranks at virtual index `q * (n - 1)`.
The quantile of an empty (all-NaN) column is NaN. -/
def pvQuantile (xs : List PV) (q : ℚ) : PV :=
  if (nonNanSorted xs).length = 0 then .nan
  else
    pvLerp ((nonNanSorted xs).getD (qIdx (nonNanSorted xs).length q) .nan)
      ((nonNanSorted xs).getD
        (min (qIdx (nonNanSorted xs).length q + 1) ((nonNanSorted xs).length - 1)) .nan)
      (q * (((nonNanSorted xs).length : ℚ) - 1) - (qIdx (nonNanSorted xs).length q : ℚ))

/-- Sum of a float column (`+∞ + −∞` gives NaN, NaN propagates). -/
def pvSum (xs : List PV) : PV := xs.foldr pvAdd (.num 0)

/-- Division of a column aggregate by a (positive) count. -/
def pvDivNat : PV → ℕ → PV
  | .nan, _ => .nan
  | .pinf, _ => .pinf
  | .ninf, _ => .ninf
  | .num a, n => .num (a / (n : ℚ))

/-- pandas `mean` with its default `skipna=True`: NaN entries are dropped,
the mean of the remaining entries is returned, and NaN is returned when
nothing remains. -/
def pvMean (xs : List PV) : PV :=
  if (xs.filter (fun v => !pvIsNan v)).length = 0 then .nan
  else pvDivNat (pvSum (xs.filter (fun v => !pvIsNan v))) (xs.filter (fun v => !pvIsNan v)).length

/-- One row of the raw Upbit daily-candle table as `analyze_regimes`
receives it: the six columns selected by `fetch_upbit_data`. -/
structure DailyBar where
  date : ℤ
  opening_price : ℚ
  high_price : ℚ
  low_price : ℚ
  trade_price : ℚ
  candle_acc_trade_volume : ℚ
deriving DecidableEq, Repr, Inhabited

/-- Volatility column: `(df["high_price"] - df["low_price"]) / df["trade_price"]`. -/
def volOf (b : DailyBar) : PV := fdiv (b.high_price - b.low_price) b.trade_price

/-- Close price of row `i` (arbitrary default out of range). -/
def closeAt (df : List DailyBar) (i : ℕ) : ℚ := (df.getD i default).trade_price

/-- Return column: `df["trade_price"].pct_change()` — NaN for the first row,
`(close_i - close_(i-1)) / close_(i-1)` with IEEE division otherwise. -/
def retAt (df : List DailyBar) (i : ℕ) : PV :=
  if i = 0 then .nan else fdiv (closeAt df i - closeAt df (i - 1)) (closeAt df (i - 1))

/-- Low threshold: `df["volatility"].quantile(0.3)`. -/
def low_thr (df : List DailyBar) : PV := pvQuantile (df.map volOf) (3/10)

/-- High threshold: `df["volatility"].quantile(0.7)`. -/
def high_thr (df : List DailyBar) : PV := pvQuantile (df.map volOf) (7/10)

/-- Inner `label_regime` of `analyze_regimes`: `if v <= low_thr: "LOW_VOL"
elif v >= high_thr: "HIGH_VOL" else: "MID_VOL"`, with IEEE comparisons
(`v >= high_thr` is `pvLe high_thr v`). -/
def label_regime (low high v : PV) : String :=
  if pvLe v low then "LOW_VOL" else if pvLe high v then "HIGH_VOL" else "MID_VOL"

/-- One row of the DataFrame after `analyze_regimes` added the
`volatility`, `return` and `regime` columns (`ret` stands for the
`return` column; `return` is a reserved word here). -/
structure DerivedBar where
  base : DailyBar
  volatility : PV
  ret : PV
  regime : String
deriving DecidableEq, Repr, Inhabited

/-- Row `i` of the derived DataFrame. -/
def mkDerived (df : List DailyBar) (i : ℕ) : DerivedBar :=
  { base := df.getD i default
    volatility := volOf (df.getD i default)
    ret := retAt df i
    regime := label_regime (low_thr df) (high_thr df) (volOf (df.getD i default)) }

/-- The derived DataFrame produced by `analyze_regimes`, row by row. -/
def derivedBars (df : List DailyBar) : List DerivedBar :=
  (List.range df.length).map (mkDerived df)

/-- Lexicographic strict comparison of char sequences, the order in which
pandas sorts string group keys. -/
def lexLt : List Char → List Char → Bool
  | [], [] => false
  | [], _ :: _ => true
  | _ :: _, [] => false
  | a :: as, b :: bs => if a < b then true else if b < a then false else lexLt as bs

/-- Strict lexicographic order on the label strings. -/
def strLtB (s t : String) : Bool := lexLt s.toList t.toList

/-- Propositional strict lexicographic order. -/
def strlt (s t : String) : Prop := strLtB s t = true

instance : DecidableRel strlt := fun s t => inferInstanceAs (Decidable (strLtB s t = true))

/-- Reflexive lexicographic order (`s <= t` iff not `t < s`). -/
def strLeB (s t : String) : Bool := !(strLtB t s)

/-- Propositional reflexive lexicographic order. -/
def strle (s t : String) : Prop := strLeB s t = true

instance : DecidableRel strle := fun s t => inferInstanceAs (Decidable (strLeB s t = true))

/-- Group keys of `df.groupby("regime")`: the distinct labels in ascending
lexicographic order (pandas sorts group keys by default). -/
def uniqueLabels (ls : List String) : List String := (List.insertionSort strle ls).dedup

/-- One row of `df.groupby("regime")[["return", "volatility",
"candle_acc_trade_volume"]].mean()`: the label and the three column means
over the rows carrying that label. -/
def statsRow (ds : List DerivedBar) (L : String) : String × PV × PV × PV :=
  (L, pvMean ((ds.filter (fun d => d.regime == L)).map (fun d => d.ret)),
    pvMean ((ds.filter (fun d => d.regime == L)).map (fun d => d.volatility)),
    pvMean ((ds.filter (fun d => d.regime == L)).map
      (fun d => PV.num d.base.candle_acc_trade_volume)))

/-- The per-regime statistics table written to `regime_stats.csv`. -/
def regimeStats (ds : List DerivedBar) : List (String × PV × PV × PV) :=
  (uniqueLabels (ds.map (fun d => d.regime))).map (statsRow ds)

/-- `analyze_regimes`: the derived DataFrame together with the per-regime
statistics table. -/
def analyze_regimes (df : List DailyBar) : List DerivedBar × List (String × PV × PV × PV) :=
  (derivedBars df, regimeStats (derivedBars df))

/-- Labeling rule exactly as the spec words it, over plain rationals:
`v ≤ low_threshold → LOW_VOL`; `v ≥ high_threshold → HIGH_VOL`;
otherwise `MID_VOL`, the low check evaluated first. -/
def specLabel (v l h : ℚ) : String :=
  if v ≤ l then "LOW_VOL" else if h ≤ v then "HIGH_VOL" else "MID_VOL"

/-- Linear interpolation between the closest ranks of a sorted column at
virtual index `v` (rational-valued shadow of the numpy lerp; for finite
data the two numpy branch formulas agree exactly). -/
def interpAt (ys : List ℚ) (v : ℚ) : ℚ :=
  ys.getD (⌊v⌋).toNat 0 +
    (ys.getD (min ((⌊v⌋).toNat + 1) (ys.length - 1)) 0 - ys.getD (⌊v⌋).toNat 0) *
      (v - ((⌊v⌋).toNat : ℚ))

/-- The spec's "standard quantile estimator with interpolation", over exact
rationals (junk value 0 on empty data). -/
def specQuantile (xs : List ℚ) (q : ℚ) : ℚ :=
  if (List.insertionSort (· ≤ ·) xs).length = 0 then 0
  else
    interpAt (List.insertionSort (· ≤ ·) xs)
      (q * (((List.insertionSort (· ≤ ·) xs).length : ℚ) - 1))

/-- Volatility values the spec calls defined: those of bars with positive
close, as exact rationals. -/
def specDefinedVols (df : List DailyBar) : List ℚ :=
  (df.filter (fun b => decide (0 < b.trade_price))).map
    (fun b => (b.high_price - b.low_price) / b.trade_price)

/-- Prefix of a path up to and including its final `/` (`p[:i]` with
`i = p.rfind('/') + 1` in `posixpath.dirname`). -/
def dirnameHead (cs : List Char) : List Char :=
  cs.take (cs.length - 1 - cs.reverse.findIdx (fun c => c == '/') + 1)

/-- Model of Python `posixpath.dirname`: the text before the final `/`
(with trailing slashes stripped unless the head is all slashes); a bare
filename without any `/` gives the empty string. -/
def dirname (p : String) : String :=
  if '/' ∈ p.toList then
    if (dirnameHead p.toList).all (fun c => c == '/') then String.mk (dirnameHead p.toList)
    else String.mk (((dirnameHead p.toList).reverse.dropWhile (fun c => c == '/')).reverse)
  else ""

/-- Model of `os.makedirs(path, exist_ok=True)` at the path-shape level:
the empty path raises `FileNotFoundError` (`exist_ok` does not help,
since `''` never names an existing directory), while any nonempty path
is assumed creatable. -/
def makedirs (path : String) : Except String Unit :=
  if path = "" then .error "FileNotFoundError" else .ok ()

/-- Sink-path preparation `os.makedirs(os.path.dirname(filename),
exist_ok=True)` performed by `save_to_excel` (cal.py line 43) and by
`analyze_regimes` (cal.py line 76) before writing. -/
def sinkPrep (filename : String) : Except String Unit := makedirs (dirname filename)

/-! Helper lemmas about the embedded operations. -/

lemma nonNanSorted_length (xs : List PV) :
    (nonNanSorted xs).length = (xs.filter (fun v => !pvIsNan v)).length :=
  (List.perm_insertionSort pvle _).length_eq

lemma floor_nat_add (i : ℕ) (g : ℚ) (hg0 : 0 ≤ g) (hg1 : g < 1) : ⌊(i : ℚ) + g⌋ = i := by
  rw [Int.floor_eq_iff]
  constructor
  · push_cast
    linarith
  · push_cast
    linarith

lemma qIdx_eval (n : ℕ) (q g : ℚ) (i : ℕ) (hg0 : 0 ≤ g) (hg1 : g < 1)
    (hv : q * ((n : ℚ) - 1) = (i : ℚ) + g) : qIdx n q = i := by
  rw [qIdx, hv, floor_nat_add i g hg0 hg1, Int.toNat_natCast]

lemma pvQuantile_eval (xs : List PV) (q g : ℚ) (i : ℕ)
    (hg0 : 0 ≤ g) (hg1 : g < 1)
    (hne : (xs.filter (fun v => !pvIsNan v)).length ≠ 0)
    (hv : q * (((xs.filter (fun v => !pvIsNan v)).length : ℚ) - 1) = (i : ℚ) + g) :
    pvQuantile xs q =
      pvLerp ((nonNanSorted xs).getD i .nan)
        ((nonNanSorted xs).getD
          (min (i + 1) ((xs.filter (fun v => !pvIsNan v)).length - 1)) .nan)
        g := by
  have hn : (nonNanSorted xs).length = (xs.filter (fun v => !pvIsNan v)).length :=
    nonNanSorted_length xs
  have hq : qIdx (nonNanSorted xs).length q = i := by
    rw [hn]
    exact qIdx_eval _ q g i hg0 hg1 hv
  rw [pvQuantile, if_neg (by rw [hn]; exact hne), hq, hn, hv]
  ring_nf

lemma derivedBars_length (df : List DailyBar) : (derivedBars df).length = df.length := by
  simp [derivedBars]

lemma derivedBars_getD (df : List DailyBar) (i : ℕ) (hi : i < df.length) :
    (derivedBars df).getD i default = mkDerived df i := by
  rw [derivedBars, List.getD, List.get?_map, List.get?_range hi]
  rfl

lemma mem_derivedBars (df : List DailyBar) (i : ℕ) (hi : i < df.length) :
    mkDerived df i ∈ derivedBars df := by
  rw [derivedBars]
  exact List.mem_map_of_mem _ (List.mem_range.mpr hi)

lemma mem_uniqueLabels (L : String) (ls : List String) : L ∈ uniqueLabels ls ↔ L ∈ ls := by
  rw [uniqueLabels, List.mem_dedup]
  exact (List.perm_insertionSort strle ls).mem_iff

lemma regimeStats_fst (ds : List DerivedBar) :
    (regimeStats ds).map (fun r => r.1) = uniqueLabels (ds.map (fun d => d.regime)) := by
  rw [regimeStats, List.map_map]
  exact List.map_id _

/-! Main results, one theorem per claim of the specification. -/

/-- C8: an empty input bar sequence is accepted: the classifier output is
empty and the statistics mapping is empty, with no error raised (both
components are total functions). -/
theorem empty_input_ok : analyze_regimes [] = ([], []) := rfl

/-- C9: classification and aggregation preserve the fetched records: the
derived frame has one row per input row, and row `i` carries the input
bar's six fields unchanged; both components are pure functions of the
input list. -/
theorem fields_preserved (df : List DailyBar) :
    (analyze_regimes df).1.length = df.length ∧
      ∀ i, i < df.length →
        ((analyze_regimes df).1.getD i default).base = df.getD i default := by
  constructor
  · exact derivedBars_length df
  · intro i hi
    show ((derivedBars df).getD i default).base = df.getD i default
    rw [derivedBars_getD df i hi]
    rfl

/-- Witness for C9 at a concrete one-bar input. -/
theorem fields_preserved_witness :
    ((analyze_regimes [⟨0, 1, 2, 1, 2, 5⟩]).1.getD 0 default).base
      = List.getD [(⟨0, 1, 2, 1, 2, 5⟩ : DailyBar)] 0 default :=
  (fields_preserved [⟨0, 1, 2, 1, 2, 5⟩]).2 0 (by decide)

/-- C10: when the destination filename has no directory component, the
sink-path preparation of `save_to_excel` and `analyze_regimes` fails:
`os.path.dirname` gives the empty string and `os.makedirs('')` raises
`FileNotFoundError` even though the current directory exists. -/
theorem bare_filename_fails (f : String) (hf : ¬ '/' ∈ f.toList) :
    sinkPrep f = Except.error "FileNotFoundError" := by
  rw [sinkPrep, dirname, if_neg hf]
  rfl

/-- Witness for C10 at the default statistics filename shorn of its
directory. -/
theorem bare_filename_fails_witness :
    sinkPrep "regime_stats.csv" = Except.error "FileNotFoundError" :=
  bare_filename_fails "regime_stats.csv" (by decide)

/-- C1: a bar whose volatility is the finite value `v`, classified against
finite thresholds `l` (low) and `h` (high) as computed by the classifier,
is labeled by the spec's rule — `v ≤ l → LOW_VOL`, else `v ≥ h → HIGH_VOL`,
else `MID_VOL` — with both boundaries inclusive; and when `l = h`, a value
equal to both resolves to `LOW_VOL` because the low check runs first. -/
theorem label_rule (df : List DailyBar) (i : ℕ) (v l h : ℚ) (hi : i < df.length)
    (hv : ((analyze_regimes df).1.getD i default).volatility = PV.num v)
    (hl : low_thr df = PV.num l) (hh : high_thr df = PV.num h) :
    ((analyze_regimes df).1.getD i default).regime = specLabel v l h ∧
      (l = h → v = l → ((analyze_regimes df).1.getD i default).regime = "LOW_VOL") := by
  have hd : (analyze_regimes df).1.getD i default = mkDerived df i := derivedBars_getD df i hi
  rw [hd] at hv ⊢
  have hvol : volOf (df.getD i default) = PV.num v := hv
  have hreg : (mkDerived df i).regime = label_regime (PV.num l) (PV.num h) (PV.num v) := by
    show label_regime (low_thr df) (high_thr df) (volOf (df.getD i default))
      = label_regime (PV.num l) (PV.num h) (PV.num v)
    rw [hvol, hl, hh]
  rw [hreg]
  constructor
  · rw [label_regime, specLabel]
    by_cases h1 : v ≤ l
    · simp [pvLe, h1]
    · by_cases h2 : h ≤ v <;> simp [pvLe, h1, h2]
  · intro hlh hvl
    subst hlh
    subst hvl
    simp [label_regime, pvLe]

/-- Sample five-bar frame (closes 1, lows 0, highs 0,1,2,3,10): its
volatilities are 0,1,2,3,10, its thresholds 6/5 and 14/5. -/
def dfA : List DailyBar :=
  [⟨0, 1, 0, 0, 1, 1⟩, ⟨1, 1, 1, 0, 1, 1⟩, ⟨2, 1, 2, 0, 1, 1⟩, ⟨3, 1, 3, 0, 1, 1⟩,
   ⟨4, 1, 10, 0, 1, 1⟩]

lemma dfA_low : low_thr dfA = PV.num (6/5) := by
  rw [low_thr]
  rw [pvQuantile_eval _ _ (1/5) 1 (by norm_num) (by norm_num)
    (by norm_num [dfA, volOf, fdiv, pvIsNan, List.filter])
    (by norm_num [dfA, volOf, fdiv, pvIsNan, List.filter])]
  norm_num [dfA, volOf, fdiv, pvIsNan, List.filter, List.insertionSort, List.orderedInsert,
    pvle, pvLeT, pvLerp, pvAdd, pvMul, pvSub, pvNeg, List.getD, nonNanSorted]

lemma dfA_high : high_thr dfA = PV.num (14/5) := by
  rw [high_thr]
  rw [pvQuantile_eval _ _ (4/5) 2 (by norm_num) (by norm_num)
    (by norm_num [dfA, volOf, fdiv, pvIsNan, List.filter])
    (by norm_num [dfA, volOf, fdiv, pvIsNan, List.filter])]
  norm_num [dfA, volOf, fdiv, pvIsNan, List.filter, List.insertionSort, List.orderedInsert,
    pvle, pvLeT, pvLerp, pvAdd, pvMul, pvSub, pvNeg, List.getD, nonNanSorted]

lemma dfA_vol0 : ((analyze_regimes dfA).1.getD 0 default).volatility = PV.num 0 := by
  have hd : (analyze_regimes dfA).1.getD 0 default = mkDerived dfA 0 :=
    derivedBars_getD dfA 0 (by norm_num [dfA])
  rw [hd]
  show volOf (dfA.getD 0 default) = PV.num 0
  norm_num [dfA, volOf, fdiv, List.getD]

/-- Witness for C1: the first bar of the sample frame (volatility 0) is
labeled by the spec rule against the computed thresholds 6/5 and 14/5. -/
theorem label_rule_witness :
    ((analyze_regimes dfA).1.getD 0 default).regime = specLabel 0 (6/5) (14/5) ∧
      ((6:ℚ)/5 = 14/5 → (0:ℚ) = 6/5 →
        ((analyze_regimes dfA).1.getD 0 default).regime = "LOW_VOL") :=
  label_rule dfA 0 0 (6/5) (14/5) (by norm_num [dfA]) dfA_vol0 dfA_low dfA_high

/-- C5 counterexample: for a bar with `close = 0` and `high > low` the
volatility column holds `+∞` — the float division `x / 0` with `x > 0` —
which is a definite value, not the missing marker NaN the claim asserts. -/
theorem zero_close_counterexample :
    ((analyze_regimes [⟨0, 1, 2, 1, 0, 1⟩]).1.getD 0 default).volatility = PV.pinf ∧
      PV.pinf ≠ PV.nan := by
  have hd : (analyze_regimes [(⟨0, 1, 2, 1, 0, 1⟩ : DailyBar)]).1.getD 0 default
      = mkDerived [⟨0, 1, 2, 1, 0, 1⟩] 0 := derivedBars_getD _ 0 (by norm_num)
  constructor
  · rw [hd]
    simp only [mkDerived]
    norm_num [volOf, fdiv, List.getD]
  · simp

/-- C5 amended: no error is raised on `close = 0` (the classifier is total),
but the volatility is only missing (NaN) when additionally `high = low`;
with `high > low` it is `+∞` and with `high < low` it is `−∞`. -/
theorem zero_close_vol (df : List DailyBar) (i : ℕ) (hi : i < df.length)
    (hc : (df.getD i default).trade_price = 0) :
    ((analyze_regimes df).1.getD i default).volatility =
      (if (df.getD i default).high_price = (df.getD i default).low_price then PV.nan
       else if (df.getD i default).low_price < (df.getD i default).high_price then PV.pinf
       else PV.ninf) := by
  have hd : (analyze_regimes df).1.getD i default = mkDerived df i := derivedBars_getD df i hi
  rw [hd]
  show volOf (df.getD i default) = _
  rw [volOf, fdiv, if_pos hc]
  simp [sub_eq_zero, sub_pos]

/-- Witness for C5 at a one-bar frame with `close = 0`, `high = 2`, `low = 1`. -/
theorem zero_close_vol_witness :
    ((analyze_regimes [⟨0, 1, 2, 1, 0, 1⟩]).1.getD 0 default).volatility =
      (if (List.getD [(⟨0, 1, 2, 1, 0, 1⟩ : DailyBar)] 0 default).high_price
            = (List.getD [(⟨0, 1, 2, 1, 0, 1⟩ : DailyBar)] 0 default).low_price then PV.nan
       else if (List.getD [(⟨0, 1, 2, 1, 0, 1⟩ : DailyBar)] 0 default).low_price
            < (List.getD [(⟨0, 1, 2, 1, 0, 1⟩ : DailyBar)] 0 default).high_price then PV.pinf
       else PV.ninf) :=
  zero_close_vol [⟨0, 1, 2, 1, 0, 1⟩] 0 (by norm_num) rfl

/-- Three-bar frame whose first bar has `close = 0` and `high = low`, so its
volatility is NaN (`0/0`); the other two bars have volatilities 1 and 3,
giving thresholds 8/5 and 12/5. -/
def dfB : List DailyBar :=
  [⟨0, 1, 1, 1, 0, 42⟩, ⟨1, 1, 2, 1, 1, 7⟩, ⟨2, 1, 4, 1, 1, 9⟩]

lemma dfB_low : low_thr dfB = PV.num (8/5) := by
  rw [low_thr]
  rw [pvQuantile_eval _ _ (3/10) 0 (by norm_num) (by norm_num)
    (by norm_num [dfB, volOf, fdiv, pvIsNan, List.filter])
    (by norm_num [dfB, volOf, fdiv, pvIsNan, List.filter])]
  norm_num [dfB, volOf, fdiv, pvIsNan, List.filter, List.insertionSort, List.orderedInsert,
    pvle, pvLeT, pvLerp, pvAdd, pvMul, pvSub, pvNeg, List.getD, nonNanSorted]

lemma dfB_high : high_thr dfB = PV.num (12/5) := by
  rw [high_thr]
  rw [pvQuantile_eval _ _ (7/10) 0 (by norm_num) (by norm_num)
    (by norm_num [dfB, volOf, fdiv, pvIsNan, List.filter])
    (by norm_num [dfB, volOf, fdiv, pvIsNan, List.filter])]
  norm_num [dfB, volOf, fdiv, pvIsNan, List.filter, List.insertionSort, List.orderedInsert,
    pvle, pvLeT, pvLerp, pvAdd, pvMul, pvSub, pvNeg, List.getD, nonNanSorted]

lemma dfB_derived : derivedBars dfB =
    [⟨⟨0, 1, 1, 1, 0, 42⟩, PV.nan, PV.nan, "MID_VOL"⟩,
     ⟨⟨1, 1, 2, 1, 1, 7⟩, PV.num 1, PV.pinf, "LOW_VOL"⟩,
     ⟨⟨2, 1, 4, 1, 1, 9⟩, PV.num 3, PV.num 0, "HIGH_VOL"⟩] := by
  rw [show derivedBars dfB = [mkDerived dfB 0, mkDerived dfB 1, mkDerived dfB 2] from rfl]
  rw [mkDerived, mkDerived, mkDerived, dfB_low, dfB_high]
  norm_num [dfB, volOf, fdiv, retAt, closeAt, label_regime, pvLe, List.getD]

/-- C2 counterexample: in `dfB` the first bar's volatility is NaN, yet it is
labeled `MID_VOL` (NaN fails both threshold comparisons, so `label_regime`
falls through to the final branch) and it is aggregated into the `MID_VOL`
statistics row, whose mean volume 42 is exactly this bar's volume. -/
theorem nan_vol_counterexample :
    ((analyze_regimes dfB).1.getD 0 default).volatility = PV.nan ∧
      ((analyze_regimes dfB).1.getD 0 default).regime = "MID_VOL" ∧
      ("MID_VOL", PV.nan, PV.nan, PV.num 42) ∈ (analyze_regimes dfB).2 := by
  have hd : (analyze_regimes dfB).1.getD 0 default = mkDerived dfB 0 :=
    derivedBars_getD dfB 0 (by norm_num [dfB])
  have h0 : mkDerived dfB 0 = ⟨⟨0, 1, 1, 1, 0, 42⟩, PV.nan, PV.nan, "MID_VOL"⟩ := by
    have h := dfB_derived
    rw [show derivedBars dfB = [mkDerived dfB 0, mkDerived dfB 1, mkDerived dfB 2] from rfl]
      at h
    exact (List.cons.injEq _ _ _ _ ▸ h : _ ∧ _).1
  refine ⟨by rw [hd, h0], by rw [hd, h0], ?_⟩
  show _ ∈ regimeStats (derivedBars dfB)
  rw [dfB_derived]
  have hu : uniqueLabels ["MID_VOL", "LOW_VOL", "HIGH_VOL"]
      = ["HIGH_VOL", "LOW_VOL", "MID_VOL"] := by decide
  rw [regimeStats]
  norm_num [hu, statsRow, List.filter, pvMean, pvIsNan, pvSum, pvAdd, pvDivNat]

/-- C2 amended: a bar with NaN volatility is not excluded — `label_regime`
labels it `MID_VOL` (NaN comparisons are all false), and `MID_VOL`
consequently appears among the aggregated regime rows. -/
theorem nan_vol_is_mid (df : List DailyBar) (i : ℕ) (hi : i < df.length)
    (hnan : ((analyze_regimes df).1.getD i default).volatility = PV.nan) :
    ((analyze_regimes df).1.getD i default).regime = "MID_VOL" ∧
      "MID_VOL" ∈ (analyze_regimes df).2.map (fun r => r.1) := by
  have hd : (analyze_regimes df).1.getD i default = mkDerived df i := derivedBars_getD df i hi
  rw [hd] at hnan ⊢
  have hvol : volOf (df.getD i default) = PV.nan := hnan
  have hreg : (mkDerived df i).regime = "MID_VOL" := by
    show label_regime (low_thr df) (high_thr df) (volOf (df.getD i default)) = "MID_VOL"
    rw [hvol, label_regime]
    cases low_thr df <;> cases high_thr df <;> rfl
  refine ⟨hreg, ?_⟩
  show "MID_VOL" ∈ (regimeStats (derivedBars df)).map (fun r => r.1)
  rw [regimeStats_fst, mem_uniqueLabels]
  exact List.mem_map.mpr ⟨mkDerived df i, mem_derivedBars df i hi, hreg⟩

/-- Witness for C2's amended statement at the NaN-volatility bar of `dfB`. -/
theorem nan_vol_is_mid_witness :
    ((analyze_regimes dfB).1.getD 0 default).regime = "MID_VOL" ∧
      "MID_VOL" ∈ (analyze_regimes dfB).2.map (fun r => r.1) :=
  nan_vol_is_mid dfB 0 (by norm_num [dfB])
    (by
      have hd : (analyze_regimes dfB).1.getD 0 default = mkDerived dfB 0 :=
        derivedBars_getD dfB 0 (by norm_num [dfB])
      rw [hd]
      simp only [mkDerived]
      norm_num [dfB, volOf, fdiv, List.getD])

lemma pvQuantile_singleton (v q : ℚ) : pvQuantile [PV.num v] q = PV.num v := by
  have h1 : nonNanSorted [PV.num v] = [PV.num v] := rfl
  have h2 : qIdx (1 : ℕ) q = 0 := by
    rw [qIdx]
    norm_num
  rw [pvQuantile, h1]
  norm_num [h2, pvLerp, pvAdd, pvMul, pvSub, pvNeg, List.getD]

lemma all_nan_thresholds (df : List DailyBar) (hnan : ∀ b ∈ df, volOf b = PV.nan) :
    low_thr df = PV.nan ∧ high_thr df = PV.nan := by
  have hf : (df.map volOf).filter (fun v => !pvIsNan v) = [] := by
    rw [List.filter_eq_nil]
    intro v hv
    rcases List.mem_map.mp hv with ⟨b, hb, rfl⟩
    rw [hnan b hb]
    simp [pvIsNan]
  have hs : nonNanSorted (df.map volOf) = [] := by
    rw [nonNanSorted, hf]
    rfl
  constructor
  · rw [low_thr, pvQuantile, hs]
    rfl
  · rw [high_thr, pvQuantile, hs]
    rfl

/-- C3 counterexample: a one-bar input with defined volatility is labeled
`LOW_VOL`, not the `MID_VOL` the claim asserts — the collapsed thresholds
equal the bar's own volatility, and the low check fires first on the tie. -/
theorem single_bar_counterexample :
    ((analyze_regimes [(⟨0, 1, 3, 1, 2, 5⟩ : DailyBar)]).1.getD 0 default).regime = "LOW_VOL" ∧
      ("LOW_VOL" : String) ≠ "MID_VOL" := by
  have hd : (analyze_regimes [(⟨0, 1, 3, 1, 2, 5⟩ : DailyBar)]).1.getD 0 default
      = mkDerived [⟨0, 1, 3, 1, 2, 5⟩] 0 := derivedBars_getD _ 0 (by norm_num)
  constructor
  · rw [hd]
    show label_regime (low_thr _) (high_thr _) (volOf _) = "LOW_VOL"
    have hv : volOf (⟨0, 1, 3, 1, 2, 5⟩ : DailyBar) = PV.num 1 := by
      norm_num [volOf, fdiv]
    have hmap : [(⟨0, 1, 3, 1, 2, 5⟩ : DailyBar)].map volOf = [PV.num 1] := by
      rw [List.map_singleton, hv]
    have hl : low_thr [(⟨0, 1, 3, 1, 2, 5⟩ : DailyBar)] = PV.num 1 := by
      rw [low_thr, hmap, pvQuantile_singleton]
    have hh : high_thr [(⟨0, 1, 3, 1, 2, 5⟩ : DailyBar)] = PV.num 1 := by
      rw [high_thr, hmap, pvQuantile_singleton]
    rw [show List.getD [(⟨0, 1, 3, 1, 2, 5⟩ : DailyBar)] 0 default
      = (⟨0, 1, 3, 1, 2, 5⟩ : DailyBar) from rfl, hl, hh, hv]
    simp [label_regime, pvLe]
  · simp

/-- C3 amended: when fewer than two defined volatility values exist the
thresholds do collapse, but the labels differ from the claim: a one-bar
input with `close ≠ 0` gets thresholds equal to its own volatility and is
labeled `LOW_VOL` (tie resolved by the low check), with NaN return; only
when no defined volatility exists at all (both thresholds NaN) is every
bar labeled `MID_VOL`. -/
theorem small_input_labels :
    (∀ b : DailyBar, b.trade_price ≠ 0 →
      low_thr [b] = PV.num ((b.high_price - b.low_price) / b.trade_price) ∧
      high_thr [b] = PV.num ((b.high_price - b.low_price) / b.trade_price) ∧
      (analyze_regimes [b]).1 =
        [⟨b, PV.num ((b.high_price - b.low_price) / b.trade_price), PV.nan, "LOW_VOL"⟩]) ∧
    (∀ df : List DailyBar, (∀ b ∈ df, volOf b = PV.nan) →
      low_thr df = PV.nan ∧ high_thr df = PV.nan ∧
      ∀ d ∈ (analyze_regimes df).1, d.regime = "MID_VOL") := by
  constructor
  · intro b hb
    have hv : volOf b = PV.num ((b.high_price - b.low_price) / b.trade_price) := by
      rw [volOf, fdiv, if_neg hb]
    have hmap : [b].map volOf = [PV.num ((b.high_price - b.low_price) / b.trade_price)] := by
      rw [List.map_singleton, hv]
    have hl : low_thr [b] = PV.num ((b.high_price - b.low_price) / b.trade_price) := by
      rw [low_thr, hmap, pvQuantile_singleton]
    have hh : high_thr [b] = PV.num ((b.high_price - b.low_price) / b.trade_price) := by
      rw [high_thr, hmap, pvQuantile_singleton]
    refine ⟨hl, hh, ?_⟩
    show [mkDerived [b] 0] = _
    have : mkDerived [b] 0 =
        ⟨b, PV.num ((b.high_price - b.low_price) / b.trade_price), PV.nan, "LOW_VOL"⟩ := by
      rw [mkDerived]
      rw [show List.getD [b] 0 default = b from rfl, hv, hl, hh]
      show (⟨b, _, retAt [b] 0, label_regime _ _ _⟩ : DerivedBar) = _
      rw [show retAt [b] 0 = PV.nan from rfl]
      simp [label_regime, pvLe]
    rw [this]
  · intro df hnan
    obtain ⟨hl, hh⟩ := all_nan_thresholds df hnan
    refine ⟨hl, hh, ?_⟩
    intro d hd
    rcases List.mem_map.mp hd with ⟨i, _, rfl⟩
    show label_regime (low_thr df) (high_thr df) (volOf _) = "MID_VOL"
    rw [hl, hh, label_regime]
    cases volOf (df.getD i default) <;> rfl

/-- Witness for C3 at a concrete one-bar input (close 2, high 3, low 1) and
at a concrete frame with no defined volatility (close 0, high = low). -/
theorem small_input_labels_witness :
    (analyze_regimes [(⟨0, 1, 3, 1, 2, 5⟩ : DailyBar)]).1 =
        [⟨⟨0, 1, 3, 1, 2, 5⟩, PV.num ((3 - 1) / 2), PV.nan, "LOW_VOL"⟩] ∧
      low_thr [(⟨0, 2, 2, 2, 0, 5⟩ : DailyBar)] = PV.nan := by
  constructor
  · exact (small_input_labels.1 ⟨0, 1, 3, 1, 2, 5⟩ (by norm_num)).2.2
  · refine (small_input_labels.2 [⟨0, 2, 2, 2, 0, 5⟩] ?_).1
    intro b hb
    rw [List.mem_singleton.mp hb]
    norm_num [volOf, fdiv]

lemma bool_eq_false {b : Bool} (h : ¬ b = true) : b = false := by
  cases b
  · rfl
  · exact absurd rfl h

lemma lexLt_irrefl (as : List Char) : lexLt as as = false := by
  induction as with
  | nil => rfl
  | cons a t ih => simp [lexLt, lt_irrefl, ih]

lemma lexLt_trans {as bs cs : List Char} (h1 : lexLt as bs = true) (h2 : lexLt bs cs = true) :
    lexLt as cs = true := by
  induction as generalizing bs cs with
  | nil =>
    cases bs with
    | nil => exact absurd h1 (by simp [lexLt])
    | cons b bs =>
      cases cs with
      | nil => exact absurd h2 (by simp [lexLt])
      | cons c cs => rfl
  | cons a t ih =>
    cases bs with
    | nil => exact absurd h1 (by simp [lexLt])
    | cons b bs =>
      cases cs with
      | nil => exact absurd h2 (by simp [lexLt])
      | cons c cs =>
        by_cases hab : a < b
        · by_cases hbc : b < c
          · simp [lexLt, lt_trans hab hbc]
          · by_cases hcb : c < b
            · exact absurd h2 (by simp [lexLt, hbc, hcb])
            · have hbceq : b = c := le_antisymm (not_lt.mp hcb) (not_lt.mp hbc)
              subst hbceq
              simp [lexLt, hab]
        · by_cases hba : b < a
          · exact absurd h1 (by simp [lexLt, hab, hba])
          · have habeq : a = b := le_antisymm (not_lt.mp hba) (not_lt.mp hab)
            subst habeq
            rw [lexLt] at h1 ⊢
            rw [if_neg (lt_irrefl a), if_neg (lt_irrefl a)] at h1
            by_cases hac : a < c
            · rw [if_pos hac]
            · rw [if_neg hac]
              by_cases hca : c < a
              · exact absurd h2 (by simp [lexLt, hac, hca])
              · have haceq : a = c := le_antisymm (not_lt.mp hca) (not_lt.mp hac)
                subst haceq
                rw [lexLt] at h2
                rw [if_neg (lt_irrefl a), if_neg (lt_irrefl a)] at h2
                rw [if_neg (lt_irrefl a)]
                exact ih h1 h2

lemma lexLt_eq_of {as bs : List Char} (h1 : lexLt as bs = false) (h2 : lexLt bs as = false) :
    as = bs := by
  induction as generalizing bs with
  | nil =>
    cases bs with
    | nil => rfl
    | cons b bs => exact absurd h1 (by simp [lexLt])
  | cons a t ih =>
    cases bs with
    | nil => exact absurd h2 (by simp [lexLt])
    | cons b bs =>
      by_cases hab : a < b
      · exact absurd h1 (by simp [lexLt, hab])
      · by_cases hba : b < a
        · exact absurd h2 (by simp [lexLt, hba])
        · have habeq : a = b := le_antisymm (not_lt.mp hba) (not_lt.mp hab)
          subst habeq
          rw [lexLt, if_neg (lt_irrefl a), if_neg (lt_irrefl a)] at h1 h2
          rw [ih h1 h2]

lemma string_toList_inj {s t : String} (h : s.toList = t.toList) : s = t := by
  cases s
  cases t
  exact congrArg String.mk (by simpa using h)

lemma strle_iff (s t : String) : strle s t ↔ lexLt t.toList s.toList = false := by
  rw [strle, strLeB, strLtB, Bool.not_eq_true']

instance : IsTotal String strle where
  total s t := by
    rw [strle_iff, strle_iff]
    by_cases h : lexLt t.toList s.toList = false
    · exact Or.inl h
    · refine Or.inr ?_
      have h' : lexLt t.toList s.toList = true := by
        cases hx : lexLt t.toList s.toList
        · exact absurd hx h
        · rfl
      cases hy : lexLt s.toList t.toList
      · rfl
      · exact absurd (lexLt_trans hy h') (by rw [lexLt_irrefl]; simp)

instance : IsTrans String strle where
  trans a b c hab hbc := by
    rw [strle_iff] at hab hbc ⊢
    by_cases h1 : lexLt a.toList b.toList = true
    · cases hca : lexLt c.toList a.toList
      · rfl
      · exact absurd (lexLt_trans hca h1) (by rw [hbc]; simp)
    · have h1' : lexLt a.toList b.toList = false := bool_eq_false h1
      have heq : a.toList = b.toList := lexLt_eq_of h1' hab
      rw [heq]
      exact hbc

lemma strlt_of_strle_ne {s t : String} (h : strle s t) (hne : s ≠ t) : strlt s t := by
  rw [strle_iff] at h
  rw [strlt, strLtB]
  cases hx : lexLt s.toList t.toList
  · exact absurd (string_toList_inj (lexLt_eq_of hx h)) hne
  · rfl

lemma uniqueLabels_sorted (ls : List String) : (uniqueLabels ls).Sorted strlt := by
  have hs : (List.insertionSort strle ls).Sorted strle := List.sorted_insertionSort strle ls
  have hsd : (uniqueLabels ls).Pairwise strle :=
    List.Pairwise.sublist (List.dedup_sublist _) hs
  have hnd : (uniqueLabels ls).Pairwise (· ≠ ·) := List.nodup_dedup _
  exact (hsd.and hnd).imp (fun hab => strlt_of_strle_ne hab.1 hab.2)

/-- C4 amended: the statistics table has exactly one row per regime label
that occurs in the derived frame (absent labels are omitted), and its rows
are in ascending lexicographic label order — which for these labels is
`HIGH_VOL`, `LOW_VOL`, `MID_VOL`, not the claimed `LOW_VOL`, `MID_VOL`,
`HIGH_VOL` (pandas `groupby` sorts keys lexicographically). -/
theorem stats_rows (df : List DailyBar) :
    ((analyze_regimes df).2.map (fun r => r.1)).Sorted strlt ∧
      ∀ L : String, L ∈ (analyze_regimes df).2.map (fun r => r.1) ↔
        ∃ d ∈ (analyze_regimes df).1, d.regime = L := by
  constructor
  · show ((regimeStats (derivedBars df)).map (fun r => r.1)).Sorted strlt
    rw [regimeStats_fst]
    exact uniqueLabels_sorted _
  · intro L
    show L ∈ (regimeStats (derivedBars df)).map (fun r => r.1) ↔
      ∃ d ∈ derivedBars df, d.regime = L
    rw [regimeStats_fst, mem_uniqueLabels, List.mem_map]

/-- Witness for C4's amended statement at the sample frame `dfA`. -/
theorem stats_rows_witness :
    ((analyze_regimes dfA).2.map (fun r => r.1)).Sorted strlt ∧
      ("MID_VOL" ∈ (analyze_regimes dfA).2.map (fun r => r.1) ↔
        ∃ d ∈ (analyze_regimes dfA).1, d.regime = "MID_VOL") :=
  ⟨(stats_rows dfA).1, (stats_rows dfA).2 "MID_VOL"⟩

lemma dfA_derived : derivedBars dfA =
    [⟨⟨0, 1, 0, 0, 1, 1⟩, PV.num 0, PV.nan, "LOW_VOL"⟩,
     ⟨⟨1, 1, 1, 0, 1, 1⟩, PV.num 1, PV.num 0, "LOW_VOL"⟩,
     ⟨⟨2, 1, 2, 0, 1, 1⟩, PV.num 2, PV.num 0, "MID_VOL"⟩,
     ⟨⟨3, 1, 3, 0, 1, 1⟩, PV.num 3, PV.num 0, "HIGH_VOL"⟩,
     ⟨⟨4, 1, 10, 0, 1, 1⟩, PV.num 10, PV.num 0, "HIGH_VOL"⟩] := by
  rw [show derivedBars dfA =
    [mkDerived dfA 0, mkDerived dfA 1, mkDerived dfA 2, mkDerived dfA 3, mkDerived dfA 4]
    from rfl]
  rw [mkDerived, mkDerived, mkDerived, mkDerived, mkDerived, dfA_low, dfA_high]
  norm_num [dfA, volOf, fdiv, retAt, closeAt, label_regime, pvLe, List.getD]

/-- C4 counterexample: a frame containing all three regimes yields the
statistics rows in the order `HIGH_VOL`, `LOW_VOL`, `MID_VOL`, which is
not the claimed order `LOW_VOL`, `MID_VOL`, `HIGH_VOL`. -/
theorem stats_order_counterexample :
    (analyze_regimes dfA).2.map (fun r => r.1) = ["HIGH_VOL", "LOW_VOL", "MID_VOL"] ∧
      (analyze_regimes dfA).2.map (fun r => r.1) ≠ ["LOW_VOL", "MID_VOL", "HIGH_VOL"] := by
  have h : (analyze_regimes dfA).2.map (fun r => r.1) = ["HIGH_VOL", "LOW_VOL", "MID_VOL"] := by
    show (regimeStats (derivedBars dfA)).map (fun r => r.1) = _
    rw [regimeStats_fst, dfA_derived]
    decide
  refine ⟨h, ?_⟩
  rw [h]
  decide

lemma pvMean_cons_nan (xs : List PV) : pvMean (PV.nan :: xs) = pvMean xs := by
  simp [pvMean, List.filter_cons, pvIsNan]

lemma retAt_zero (df : List DailyBar) : retAt df 0 = PV.nan := rfl

/-- C7 counterexample: when the previous close is 0 the return is not
missing — with closes 0 then 1 the second bar's `pct_change` is `+∞`
(float `1/0`), not NaN. -/
theorem zero_prev_close_counterexample :
    ((analyze_regimes [(⟨0, 1, 1, 1, 0, 1⟩ : DailyBar), ⟨1, 1, 1, 1, 1, 1⟩]).1.getD 1
        default).ret = PV.pinf ∧ PV.pinf ≠ PV.nan := by
  have hd : (analyze_regimes [(⟨0, 1, 1, 1, 0, 1⟩ : DailyBar), ⟨1, 1, 1, 1, 1, 1⟩]).1.getD 1
      default = mkDerived [⟨0, 1, 1, 1, 0, 1⟩, ⟨1, 1, 1, 1, 1, 1⟩] 1 :=
    derivedBars_getD _ 1 (by norm_num)
  constructor
  · rw [hd]
    simp only [mkDerived]
    norm_num [retAt, closeAt, fdiv, List.getD]
  · simp

/-- C7 amended: the first bar's return is NaN; for `i > 0` with nonzero
previous close the return is the exact relative change; a zero previous
close yields `±∞` or NaN rather than a missing value; and every regime's
mean return is unchanged when the first bar is dropped from the frame
(its NaN return is skipped by `mean`), each statistics row's return entry
being the group mean of its label's returns. -/
theorem returns_spec (df : List DailyBar) :
    (0 < df.length → ((analyze_regimes df).1.getD 0 default).ret = PV.nan) ∧
      (∀ i, 0 < i → i < df.length → (df.getD (i - 1) default).trade_price ≠ 0 →
        ((analyze_regimes df).1.getD i default).ret =
          PV.num (((df.getD i default).trade_price - (df.getD (i - 1) default).trade_price) /
            (df.getD (i - 1) default).trade_price)) ∧
      (∀ L : String,
        pvMean (((analyze_regimes df).1.filter (fun d => d.regime == L)).map (fun d => d.ret)) =
          pvMean ((((analyze_regimes df).1.drop 1).filter (fun d => d.regime == L)).map
            (fun d => d.ret))) ∧
      (∀ row ∈ (analyze_regimes df).2,
        row.2.1 =
          pvMean (((analyze_regimes df).1.filter (fun d => d.regime == row.1)).map
            (fun d => d.ret))) := by
  refine ⟨?_, ?_, ?_, ?_⟩
  · intro h0
    have hd : (analyze_regimes df).1.getD 0 default = mkDerived df 0 :=
      derivedBars_getD df 0 h0
    rw [hd]
    exact retAt_zero df
  · intro i hi0 hi hprev
    have hd : (analyze_regimes df).1.getD i default = mkDerived df i :=
      derivedBars_getD df i hi
    rw [hd]
    show retAt df i = _
    rw [retAt, if_neg (Nat.pos_iff_ne_zero.mp hi0)]
    simp only [closeAt]
    rw [fdiv, if_neg hprev]
  · intro L
    show pvMean (((derivedBars df).filter _).map _) =
      pvMean ((((derivedBars df).drop 1).filter _).map _)
    cases df with
    | nil => rfl
    | cons b bs =>
      have hcons : ∃ tl, derivedBars (b :: bs) = mkDerived (b :: bs) 0 :: tl := by
        rw [derivedBars, List.length_cons, List.range_succ_eq_map, List.map_cons]
        exact ⟨_, rfl⟩
      obtain ⟨tl, htl⟩ := hcons
      rw [htl]
      rw [show (mkDerived (b :: bs) 0 :: tl).drop 1 = tl from rfl]
      by_cases hp : ((mkDerived (b :: bs) 0).regime == L) = true
      · rw [List.filter_cons, if_pos hp, List.map_cons,
          show (mkDerived (b :: bs) 0).ret = PV.nan from rfl, pvMean_cons_nan]
      · rw [List.filter_cons, if_neg hp]
  · intro row hrow
    rcases List.mem_map.mp hrow with ⟨L, _, rfl⟩
    rfl

/-- Witness for C7 at `dfB` (closes 0, 1, 1): NaN first return, exact
return at index 2, drop-first invariance of the `MID_VOL` mean return,
and the `HIGH_VOL` statistics row's return entry. -/
theorem returns_spec_witness :
    ((analyze_regimes dfB).1.getD 0 default).ret = PV.nan ∧
      ((analyze_regimes dfB).1.getD 2 default).ret =
        PV.num (((dfB.getD 2 default).trade_price - (dfB.getD 1 default).trade_price) /
          (dfB.getD 1 default).trade_price) ∧
      pvMean (((analyze_regimes dfB).1.filter (fun d => d.regime == "MID_VOL")).map
          (fun d => d.ret)) =
        pvMean ((((analyze_regimes dfB).1.drop 1).filter (fun d => d.regime == "MID_VOL")).map
          (fun d => d.ret)) ∧
      (statsRow (derivedBars dfB) "HIGH_VOL").2.1 =
        pvMean (((analyze_regimes dfB).1.filter
          (fun d => d.regime == "HIGH_VOL")).map (fun d => d.ret)) := by
  have hmem : statsRow (derivedBars dfB) "HIGH_VOL" ∈ (analyze_regimes dfB).2 := by
    show _ ∈ regimeStats (derivedBars dfB)
    rw [regimeStats]
    refine List.mem_map_of_mem _ ?_
    rw [dfB_derived]
    decide
  exact ⟨(returns_spec dfB).1 (by norm_num [dfB]),
    (returns_spec dfB).2.1 2 (by norm_num) (by norm_num [dfB]) (by norm_num [dfB, List.getD]),
    (returns_spec dfB).2.2.1 "MID_VOL",
    (returns_spec dfB).2.2.2 (statsRow (derivedBars dfB) "HIGH_VOL") hmem⟩

lemma pvle_num_iff (a b : ℚ) : pvle (PV.num a) (PV.num b) ↔ a ≤ b := by
  simp [pvle, pvLeT]

lemma orderedInsert_map_num (a : ℚ) (l : List ℚ) :
    List.orderedInsert pvle (PV.num a) (l.map PV.num) =
      (List.orderedInsert (· ≤ ·) a l).map PV.num := by
  induction l with
  | nil => rfl
  | cons b t ih =>
    rw [List.map_cons, List.orderedInsert, List.orderedInsert]
    by_cases h : a ≤ b
    · rw [if_pos ((pvle_num_iff a b).mpr h), if_pos h, List.map_cons, List.map_cons]
    · rw [if_neg (fun hc => h ((pvle_num_iff a b).mp hc)), if_neg h, List.map_cons, ih]

lemma insertionSort_map_num (xs : List ℚ) :
    List.insertionSort pvle (xs.map PV.num) = (List.insertionSort (· ≤ ·) xs).map PV.num := by
  induction xs with
  | nil => rfl
  | cons a t ih =>
    rw [List.map_cons, List.insertionSort, List.insertionSort, ih, orderedInsert_map_num]

lemma filter_nonNan_map_num (xs : List ℚ) :
    (xs.map PV.num).filter (fun v => !pvIsNan v) = xs.map PV.num := by
  rw [List.filter_eq_self]
  intro v hv
  rcases List.mem_map.mp hv with ⟨a, _, rfl⟩
  simp [pvIsNan]

lemma nonNanSorted_map_num (xs : List ℚ) :
    nonNanSorted (xs.map PV.num) = (List.insertionSort (· ≤ ·) xs).map PV.num := by
  rw [nonNanSorted, filter_nonNan_map_num, insertionSort_map_num]

lemma getD_map_num (l : List ℚ) (i : ℕ) (hi : i < l.length) :
    (l.map PV.num).getD i PV.nan = PV.num (l.getD i 0) := by
  rw [List.getD, List.getD, List.get?_map, List.get?_eq_get hi]
  rfl

lemma pvLerp_num (a b g : ℚ) : pvLerp (PV.num a) (PV.num b) g = PV.num (a + (b - a) * g) := by
  rw [pvLerp]
  split_ifs with h
  · simp only [pvSub, pvNeg, pvAdd, pvMul, PV.num.injEq]
    ring
  · simp only [pvSub, pvNeg, pvAdd, pvMul, PV.num.injEq]
    ring

lemma pvQuantile_map_num (xs : List ℚ) (q : ℚ) (hne : xs ≠ []) (h0 : 0 ≤ q) (h1 : q ≤ 1) :
    pvQuantile (xs.map PV.num) q = PV.num (specQuantile xs q) := by
  have hlen : (List.insertionSort (· ≤ ·) xs).length = xs.length :=
    (List.perm_insertionSort _ xs).length_eq
  have hnz : xs.length ≠ 0 := fun h => hne (List.length_eq_zero.mp h)
  have hpos : 1 ≤ xs.length := Nat.one_le_iff_ne_zero.mpr hnz
  have hs : nonNanSorted (xs.map PV.num) = (List.insertionSort (· ≤ ·) xs).map PV.num :=
    nonNanSorted_map_num xs
  have hsl : (nonNanSorted (xs.map PV.num)).length = xs.length := by
    rw [hs, List.length_map, hlen]
  have hnsub : ((xs.length : ℚ) - 1) ≥ 0 := by
    have : (1 : ℚ) ≤ (xs.length : ℚ) := by exact_mod_cast hpos
    linarith
  have hfl0 : (0 : ℤ) ≤ ⌊q * ((xs.length : ℚ) - 1)⌋ :=
    Int.floor_nonneg.mpr (mul_nonneg h0 hnsub)
  have hflle : ⌊q * ((xs.length : ℚ) - 1)⌋ ≤ (xs.length : ℤ) - 1 := by
    have hle : q * ((xs.length : ℚ) - 1) ≤ (xs.length : ℚ) - 1 := by
      nlinarith
    have hfc : ⌊((xs.length : ℚ) - 1)⌋ = (xs.length : ℤ) - 1 := by
      rw [show ((xs.length : ℚ) - 1) = (((xs.length : ℤ) - 1 : ℤ) : ℚ) by push_cast; ring,
        Int.floor_intCast]
    have := Int.floor_le_floor hle
    rw [hfc] at this
    exact this
  have hib : qIdx xs.length q ≤ xs.length - 1 := by
    rw [qIdx]
    omega
  have hilt : qIdx xs.length q < xs.length := by omega
  have hjb : min (qIdx xs.length q + 1) (xs.length - 1) < xs.length := by omega
  rw [pvQuantile, if_neg (by rw [hsl]; exact hnz), hsl, hs,
    getD_map_num _ _ (by rw [hlen]; exact hilt),
    getD_map_num _ _ (by rw [hlen]; exact hjb), pvLerp_num]
  rw [specQuantile, if_neg (by rw [hlen]; exact hnz), interpAt, hlen]
  rfl

lemma getD_sorted_le (ys : List ℚ) (hs : ys.Sorted (· ≤ ·)) {i j : ℕ} (hij : i ≤ j)
    (hj : j < ys.length) : ys.getD i 0 ≤ ys.getD j 0 := by
  have hi : i < ys.length := Nat.lt_of_le_of_lt hij hj
  rw [List.getD, List.getD, List.get?_eq_get hi, List.get?_eq_get hj]
  show ys.get ⟨i, hi⟩ ≤ ys.get ⟨j, hj⟩
  rcases Nat.lt_or_ge i j with hlt | hge
  · exact hs.rel_get_of_lt (by exact hlt)
  · have : i = j := le_antisymm hij hge
    subst this
    exact le_refl _

lemma interpAt_mono (ys : List ℚ) (hs : ys.Sorted (· ≤ ·)) (hne : ys.length ≠ 0)
    (v₁ v₂ : ℚ) (h0 : 0 ≤ v₁) (h12 : v₁ ≤ v₂) (h2 : v₂ ≤ (ys.length : ℚ) - 1) :
    interpAt ys v₁ ≤ interpAt ys v₂ := by
  have hn1 : 1 ≤ ys.length := Nat.one_le_iff_ne_zero.mpr hne
  have hfl1 : (0 : ℤ) ≤ ⌊v₁⌋ := Int.floor_nonneg.mpr h0
  have hfl2 : (0 : ℤ) ≤ ⌊v₂⌋ := Int.floor_nonneg.mpr (le_trans h0 h12)
  have hc1 : ((⌊v₁⌋.toNat : ℚ)) = ((⌊v₁⌋ : ℤ) : ℚ) := by
    exact_mod_cast congrArg (fun z : ℤ => (z : ℚ)) (Int.toNat_of_nonneg hfl1)
  have hc2 : ((⌊v₂⌋.toNat : ℚ)) = ((⌊v₂⌋ : ℤ) : ℚ) := by
    exact_mod_cast congrArg (fun z : ℤ => (z : ℚ)) (Int.toNat_of_nonneg hfl2)
  have hb1l : ((⌊v₁⌋.toNat : ℚ)) ≤ v₁ := by
    rw [hc1]
    exact Int.floor_le v₁
  have hb1u : v₁ < (⌊v₁⌋.toNat : ℚ) + 1 := by
    rw [hc1]
    exact Int.lt_floor_add_one v₁
  have hb2l : ((⌊v₂⌋.toNat : ℚ)) ≤ v₂ := by
    rw [hc2]
    exact Int.floor_le v₂
  have hb2u : v₂ < (⌊v₂⌋.toNat : ℚ) + 1 := by
    rw [hc2]
    exact Int.lt_floor_add_one v₂
  have hi12 : ⌊v₁⌋.toNat ≤ ⌊v₂⌋.toNat := by
    have := Int.floor_le_floor h12
    omega
  have hi2b : ⌊v₂⌋.toNat ≤ ys.length - 1 := by
    have hcast : ((ys.length : ℚ) - 1) = (((ys.length : ℤ) - 1 : ℤ) : ℚ) := by
      push_cast
      ring
    have := Int.floor_le_floor h2
    rw [hcast, Int.floor_intCast] at this
    omega
  rw [interpAt, interpAt]
  by_cases hii : ⌊v₁⌋.toNat = ⌊v₂⌋.toNat
  · rw [hii]
    have hab : ys.getD ⌊v₂⌋.toNat 0 ≤ ys.getD (min (⌊v₂⌋.toNat + 1) (ys.length - 1)) 0 := by
      apply getD_sorted_le ys hs (le_min (Nat.le_succ _) (by omega)) (by omega)
    have hg12 : v₁ - (⌊v₂⌋.toNat : ℚ) ≤ v₂ - (⌊v₂⌋.toNat : ℚ) := by linarith
    nlinarith [mul_nonneg (sub_nonneg.mpr hab) (sub_nonneg.mpr hg12)]
  · have hilt : ⌊v₁⌋.toNat < ⌊v₂⌋.toNat := lt_of_le_of_ne hi12 hii
    have hmin1 : min (⌊v₁⌋.toNat + 1) (ys.length - 1) = ⌊v₁⌋.toNat + 1 :=
      min_eq_left (by omega)
    rw [hmin1]
    have ha1b1 : ys.getD ⌊v₁⌋.toNat 0 ≤ ys.getD (⌊v₁⌋.toNat + 1) 0 :=
      getD_sorted_le ys hs (Nat.le_succ _) (by omega)
    have hb1a2 : ys.getD (⌊v₁⌋.toNat + 1) 0 ≤ ys.getD ⌊v₂⌋.toNat 0 :=
      getD_sorted_le ys hs (by omega) (by omega)
    have ha2b2 : ys.getD ⌊v₂⌋.toNat 0 ≤ ys.getD (min (⌊v₂⌋.toNat + 1) (ys.length - 1)) 0 :=
      getD_sorted_le ys hs (le_min (Nat.le_succ _) (by omega)) (by omega)
    have hr1 : ys.getD ⌊v₁⌋.toNat 0 +
        (ys.getD (⌊v₁⌋.toNat + 1) 0 - ys.getD ⌊v₁⌋.toNat 0) * (v₁ - (⌊v₁⌋.toNat : ℚ)) ≤
          ys.getD (⌊v₁⌋.toNat + 1) 0 := by
      nlinarith [mul_nonneg (sub_nonneg.mpr ha1b1) (by linarith : (0:ℚ) ≤ 1 - (v₁ - (⌊v₁⌋.toNat : ℚ)))]
    have hr2 : ys.getD ⌊v₂⌋.toNat 0 ≤ ys.getD ⌊v₂⌋.toNat 0 +
        (ys.getD (min (⌊v₂⌋.toNat + 1) (ys.length - 1)) 0 - ys.getD ⌊v₂⌋.toNat 0) *
          (v₂ - (⌊v₂⌋.toNat : ℚ)) := by
      nlinarith [mul_nonneg (sub_nonneg.mpr ha2b2) (by linarith : (0:ℚ) ≤ v₂ - (⌊v₂⌋.toNat : ℚ))]
    linarith

lemma specQuantile_mono (xs : List ℚ) {q₁ q₂ : ℚ} (h0 : 0 ≤ q₁) (h12 : q₁ ≤ q₂)
    (h2 : q₂ ≤ 1) : specQuantile xs q₁ ≤ specQuantile xs q₂ := by
  rw [specQuantile, specQuantile]
  by_cases hy : (List.insertionSort (· ≤ ·) xs).length = 0
  · rw [if_pos hy, if_pos hy]
  · rw [if_neg hy, if_neg hy]
    have hn1 : 1 ≤ (List.insertionSort (· ≤ ·) xs).length := Nat.one_le_iff_ne_zero.mpr hy
    have hnn : (0 : ℚ) ≤ ((List.insertionSort (· ≤ ·) xs).length : ℚ) - 1 := by
      have : (1 : ℚ) ≤ ((List.insertionSort (· ≤ ·) xs).length : ℚ) := by exact_mod_cast hn1
      linarith
    apply interpAt_mono _ (List.sorted_insertionSort _ xs) hy
    · exact mul_nonneg h0 hnn
    · exact mul_le_mul_of_nonneg_right h12 hnn
    · nlinarith

/-- C6 amended: over inputs whose closes are all positive (every volatility
defined and finite), the two thresholds are exactly the 30th and 70th
percentiles — linear interpolation between closest ranks — of the defined
volatility values, and `low_thr ≤ high_thr`; when a close is 0 the code
instead feeds `±∞`/NaN values into the quantile (see the counterexample). -/
theorem thresholds_spec (df : List DailyBar) (hne : df ≠ [])
    (hpos : ∀ b ∈ df, 0 < b.trade_price) :
    low_thr df = PV.num (specQuantile (specDefinedVols df) (3/10)) ∧
      high_thr df = PV.num (specQuantile (specDefinedVols df) (7/10)) ∧
      specQuantile (specDefinedVols df) (3/10) ≤ specQuantile (specDefinedVols df) (7/10) := by
  have hfil : df.filter (fun b => decide (0 < b.trade_price)) = df := by
    rw [List.filter_eq_self]
    intro b hb
    simpa using hpos b hb
  have hsd : specDefinedVols df =
      df.map (fun b => (b.high_price - b.low_price) / b.trade_price) := by
    rw [specDefinedVols, hfil]
  have hvols : df.map volOf = (specDefinedVols df).map PV.num := by
    rw [hsd, List.map_map]
    refine List.map_congr_left ?_
    intro b hb
    show volOf b = PV.num ((b.high_price - b.low_price) / b.trade_price)
    rw [volOf, fdiv, if_neg (hpos b hb).ne']
  have hlen : specDefinedVols df ≠ [] := by
    rw [hsd]
    simpa using hne
  refine ⟨?_, ?_, specQuantile_mono _ (by norm_num) (by norm_num) (by norm_num)⟩
  · rw [low_thr, hvols]
    exact pvQuantile_map_num _ _ hlen (by norm_num) (by norm_num)
  · rw [high_thr, hvols]
    exact pvQuantile_map_num _ _ hlen (by norm_num) (by norm_num)

/-- Witness for C6 at the all-positive-close frame `dfA`. -/
theorem thresholds_spec_witness :
    low_thr dfA = PV.num (specQuantile (specDefinedVols dfA) (3/10)) ∧
      high_thr dfA = PV.num (specQuantile (specDefinedVols dfA) (7/10)) ∧
      specQuantile (specDefinedVols dfA) (3/10) ≤ specQuantile (specDefinedVols dfA) (7/10) :=
  thresholds_spec dfA (by simp [dfA])
    (by
      intro b hb
      simp only [dfA, List.mem_cons, List.not_mem_nil, or_false] at hb
      rcases hb with rfl | rfl | rfl | rfl | rfl <;> norm_num)

/-- Two-bar frame whose first bar has `close = 0` with `high > low`: its
volatility is `+∞`, which pandas keeps (it is not NaN) when computing the
quantiles. -/
def dfC : List DailyBar :=
  [⟨0, 0, 1, 0, 0, 1⟩, ⟨1, 1, 1, 1, 1, 1⟩]

/-- C6 counterexample: on `dfC` the low threshold computed by the code is
`+∞` — the `+∞` volatility of the zero-close bar enters the quantile —
while the 30th percentile of the defined volatility values (those of bars
with positive close) is 0; so the claimed identity fails for this input. -/
theorem thresholds_counterexample :
    low_thr dfC = PV.pinf ∧
      specQuantile (specDefinedVols dfC) (3/10) = 0 ∧
      low_thr dfC ≠ PV.num (specQuantile (specDefinedVols dfC) (3/10)) := by
  have hlow : low_thr dfC = PV.pinf := by
    rw [low_thr]
    rw [pvQuantile_eval _ _ (3/10) 0 (by norm_num) (by norm_num)
      (by norm_num [dfC, volOf, fdiv, pvIsNan, List.filter])
      (by norm_num [dfC, volOf, fdiv, pvIsNan, List.filter])]
    norm_num [dfC, volOf, fdiv, pvIsNan, List.filter, List.insertionSort, List.orderedInsert,
      pvle, pvLeT, pvLerp, pvAdd, pvMul, pvSub, pvNeg, List.getD, nonNanSorted]
  have hspec : specQuantile (specDefinedVols dfC) (3/10) = 0 := by
    have hsd : specDefinedVols dfC = [0] := by
      norm_num [specDefinedVols, dfC, List.filter]
    rw [hsd]
    norm_num [specQuantile, interpAt, List.insertionSort, List.orderedInsert, List.getD]
  refine ⟨hlow, hspec, ?_⟩
  rw [hlow, hspec]
  simp

end Cal
